import Mathlib

/-!
Verification of the motion graphing pipeline (scripts/graph_motion.py).

The script is embedded shallowly over an arbitrary linear ordered field
with a floor function.  Rational instantiations make the definitions
executable; the analytically derived constants (which involve pi) live
over the reals.  Python specific behaviours are modelled explicitly:
the int() conversion truncates toward zero (pyInt), list subscripts wrap
once for negative indices and are junk (zero) out of range (pyGetD),
and slices clamp to the list (pySlice).

Python error paths are outside the embedding: division by zero and an out
of range subscript are runtime errors in the source, while the field
embedding assigns the junk values 1 / 0 = 0 and pyGetD = 0.  Every
theorem below constrains its inputs so that no such error path is
reachable in its scope, and where the source stops with an error the
accompanying statement says so instead of asserting a junk value.
-/

namespace GraphMotion

section Defs

variable {α : Type} [LinearOrderedField α] [FloorRing α]

/-- Sample period, 0.0001 seconds (SEG_TIME in the source). -/
def SEG_TIME : α := 1 / 10000

/-- Reciprocal of the sample period (INV_SEG_TIME in the source). -/
def INV_SEG_TIME : α := 1 / SEG_TIME

/-- Margin removed from both ends of derived data, 0.050 seconds. -/
def MARGIN_TIME : α := 1 / 20

/-- Process wide acceleration magnitude. -/
def ACCEL : α := 3000

/-- Belt natural frequency. -/
def SPRING_FREQ : α := 35

/-- Belt damping coefficient. -/
def DAMPING : α := 30

/-- Python int() conversion: truncation toward zero. -/
def pyInt (x : α) : ℤ := if 0 ≤ x then ⌊x⌋ else ⌈x⌉

/-- time_to_index from the source: int(t * INV_SEG_TIME + .5). -/
def time_to_index (t : α) : ℤ := pyInt (t * INV_SEG_TIME + 1 / 2)

/-- Python list subscript: wraps one list length for negative indices.
Out of range the source raises an index error; the junk value zero taken
here stands for that unreachable branch, and every claim theorem
constrains its inputs so that no read is out of range. -/
def pyGetD (l : List α) (i : ℤ) : α :=
  let j := if i < 0 then (l.length : ℤ) + i else i
  if 0 ≤ j ∧ j < (l.length : ℤ) then l.getD j.toNat 0 else 0

/-- Python slice endpoint resolution: negative endpoints count from the
end, all endpoints clamp into [0, n]. -/
def pyIdxClamp (n : ℕ) (i : ℤ) : ℕ :=
  (if i < 0 then max 0 ((n : ℤ) + i) else min (n : ℤ) i).toNat

/-- Python slice l[a:b]. -/
def pySlice (l : List α) (a b : ℤ) : List α :=
  let s := pyIdxClamp l.length a
  let e := pyIdxClamp l.length b
  (l.drop s).take (e - s)

/-- Python range(a, b) over integers. -/
def pyRange (a b : ℤ) : List ℤ := (List.range (b - a).toNat).map fun k : ℕ => a + (k : ℤ)

/-- indexes() from the source, expressed over a length: the index list
range(drop, n - drop) with drop = time_to_index(MARGIN_TIME). -/
def indexesN (α : Type) [LinearOrderedField α] [FloorRing α] (n : ℕ) : List ℤ :=
  pyRange (time_to_index (MARGIN_TIME : α)) ((n : ℤ) - time_to_index (MARGIN_TIME : α))

/-- indexes(positions) from the source. -/
def indexes (positions : List α) : List ℤ := indexesN α positions.length

/-- The shared output building pattern of the filters: out = [0.]*n
followed by out[i] = f i for i in indexes(positions). -/
def fillOut (n : ℕ) (f : ℤ → α) : List α :=
  (List.range n).map fun i : ℕ => if (i : ℤ) ∈ indexesN α n then f (i : ℤ) else 0

/-- Python del l[keep:], i.e. truncation to the resolved slice start. -/
def trim_list (keep : ℤ) (l : List α) : List α := l.take (pyIdxClamp l.length keep)

/-- trim_lists from the source: keep = len(lists[0]) - time_to_index(2 * MARGIN_TIME)
and every list is truncated with del l[keep:]. -/
def trim_lists (lists : List (List α)) : List (List α) :=
  match lists with
  | [] => []
  | l0 :: _ =>
    lists.map (trim_list ((l0.length : ℤ) - time_to_index (2 * MARGIN_TIME : α)))

/-- Order 2 (constant acceleration) position kernel. -/
def get_acc_pos_ao2 (rel_t start_v accel move_t : α) : α :=
  (start_v + 1 / 2 * accel * rel_t) * rel_t

/-- Order 4 Bezier position kernel.  At move_t = 0 the source raises a
zero division at inv_accel_t; the field value 1 / 0 = 0 taken here is
never relied on: every theorem about this kernel assumes move_t > 0. -/
def get_acc_pos_ao4 (rel_t start_v accel move_t : α) : α :=
  let inv_accel_t := 1 / move_t
  let accel_div_accel_t := accel * inv_accel_t
  let accel_div_accel_t2 := accel_div_accel_t * inv_accel_t
  let c4 := -(1 / 2) * accel_div_accel_t2
  let c3 := accel_div_accel_t
  let c1 := start_v
  ((c4 * rel_t + c3) * rel_t * rel_t + c1) * rel_t

/-- Order 6 Bezier position kernel.  At move_t = 0 the source raises a
zero division at inv_accel_t; the field value 1 / 0 = 0 taken here is
never relied on: every theorem about this kernel assumes move_t > 0. -/
def get_acc_pos_ao6 (rel_t start_v accel move_t : α) : α :=
  let inv_accel_t := 1 / move_t
  let accel_div_accel_t := accel * inv_accel_t
  let accel_div_accel_t2 := accel_div_accel_t * inv_accel_t
  let accel_div_accel_t3 := accel_div_accel_t2 * inv_accel_t
  let accel_div_accel_t4 := accel_div_accel_t3 * inv_accel_t
  let c6 := accel_div_accel_t4
  let c5 := -3 * accel_div_accel_t3
  let c4 := 5 / 2 * accel_div_accel_t2
  let c1 := start_v
  (((c6 * rel_t + c5) * rel_t + c4) * rel_t * rel_t * rel_t + c1) * rel_t

/-- A move segment: start velocity, end velocity, optional duration. -/
structure Move (α : Type) where
  v0 : α
  v1 : α
  dur : Option α

/-- The fixed move list of the script. -/
def Moves : List (Move α) :=
  [⟨0, 0, some (1 / 10)⟩,
   ⟨6869 / 1000, 89443 / 1000, none⟩, ⟨89443 / 1000, 89443 / 1000, some (1 / 5)⟩,
   ⟨89443 / 1000, 17361 / 1000, none⟩,
   ⟨1941 / 100, 100, none⟩, ⟨100, 100, some (1 / 5)⟩, ⟨100, 5, none⟩,
   ⟨0, 0, some (3 / 10)⟩]

/-- Segment duration: the given move_t, or abs(end_v - start_v) / ACCEL. -/
def move_dur (m : Move α) : α :=
  match m.dur with
  | some d => d
  | none => |m.v1 - m.v0| / ACCEL

/-- Segment acceleration sign selection from the source. -/
def segAccel (m : Move α) : α :=
  if m.v0 < m.v1 then ACCEL else if m.v1 < m.v0 then -ACCEL else 0

/-- Number of iterations of the sampling loop: while t <= end_t the body
runs and t advances by SEG_TIME, so with exact arithmetic the count is
floor((end_t - t) / SEG_TIME) + 1 when t <= end_t and zero otherwise. -/
def segCount (t end_t : α) : ℕ :=
  if t ≤ end_t then (⌊(end_t - t) * INV_SEG_TIME⌋.toNat + 1) else 0

/-- Accumulator state of gen_positions: emitted samples, displacement
accumulated from finished segments, segment start time, sampling cursor. -/
structure GenState (α : Type) where
  out : List α
  start_d : α
  start_t : α
  t : α

/-- One iteration of the move loop of gen_positions. -/
def gen_segment (kernel : α → α → α → α → α) (s : GenState α) (m : Move α) : GenState α :=
  let mt := move_dur m
  let a := segAccel m
  let end_t := s.start_t + mt
  let cnt := segCount s.t end_t
  { out := s.out ++ (List.range cnt).map fun k : ℕ =>
      s.start_d + kernel (s.t + (k : α) * SEG_TIME - s.start_t) m.v0 a mt
    start_d := s.start_d + kernel mt m.v0 a mt
    start_t := end_t
    t := s.t + (cnt : α) * SEG_TIME }

/-- gen_positions from the source, generic in the kernel and move list. -/
def gen_positions (kernel : α → α → α → α → α) (moves : List (Move α)) : List α :=
  (moves.foldl (gen_segment kernel) ⟨[], 0, 0, 0⟩).out

/-- One iteration of the estimate_spring loop: state is (head_pos, head_v),
the output sample is the freshly integrated head position. -/
def springStep (ang_freq2 : α) (s : α × α) (stepper_pos : α) : (α × α) × α :=
  let head_pos := s.1 + s.2 * SEG_TIME
  let head_a := (stepper_pos - head_pos) * ang_freq2
  let head_v := s.2 + head_a * SEG_TIME
  let head_v2 := head_v - head_v * DAMPING * SEG_TIME
  ((head_pos, head_v2), head_pos)

/-- The estimate_spring loop from a given state. -/
def estimate_springGo (ang_freq2 : α) (s : α × α) : List α → List α
  | [] => []
  | c :: rest =>
    (springStep ang_freq2 s c).2 :: estimate_springGo ang_freq2 (springStep ang_freq2 s c).1 rest

/-- estimate_spring generic in the squared angular frequency. -/
def estimate_springW (ang_freq2 : α) (positions : List α) : List α :=
  estimate_springGo ang_freq2 (0, 0) positions

/-- Two point average filter calc_average, generic in the read function. -/
def calc_averageG (get : ℤ → α) (n : ℕ) (smooth_time : α) : List α :=
  let offset := time_to_index (smooth_time * (1 / 2))
  fillOut n fun i => 1 / 2 * (get (i - offset) + get (i + offset))

/-- calc_average from the source. -/
def calc_average (positions : List α) (smooth_time : α) : List α :=
  calc_averageG (pyGetD positions) positions.length smooth_time

/-- Box filter calc_smooth from the source.  At offset 0 the weight
division is a zero division error in the source; the claim theorems that
assert values of this filter assume offset at least one. -/
def calc_smooth (positions : List α) (smooth_time : α) : List α :=
  let offset := time_to_index (smooth_time * (1 / 2))
  let weight := (1 / 2) / (offset : α)
  fillOut positions.length fun i => (pySlice positions (i - offset) (i + offset)).sum * weight

/-- Triangular weighted filter calc_weighted, generic in the read
function.  At offset 0 the weight division is a zero division error in
the source; the claim theorems that assert values of this filter assume
offset at least one. -/
def calc_weightedG (get : ℤ → α) (n : ℕ) (smooth_time : α) : List α :=
  let offset := time_to_index (smooth_time * (1 / 2))
  let weight := 1 / (offset : α) ^ 2
  fillOut n fun i =>
    ((pyRange (i - offset) (i + offset)).map fun j =>
      get j * ((offset - |j - i| : ℤ) : α)).sum * weight

/-- calc_weighted from the source. -/
def calc_weighted (positions : List α) (smooth_time : α) : List α :=
  calc_weightedG (pyGetD positions) positions.length smooth_time

/-- Quadratic decay weighted filter calc_weighted2, generic in the read
function.  At offset 0 the weight division is a zero division error in
the source; the claim theorems that assert values of this filter assume
offset at least one. -/
def calc_weighted2G (get : ℤ → α) (n : ℕ) (smooth_time : α) : List α :=
  let offset := time_to_index (smooth_time * (1 / 2))
  let weight := 1 / (offset : α) ^ 4
  fillOut n fun i =>
    ((pyRange (i - offset) (i + offset)).map fun j =>
      get j * (((offset - |j - i|) ^ 2 : ℤ) : α) * (2 * ((|j - i| : ℤ) : α) + (offset : α))).sum * weight

/-- calc_weighted2 from the source. -/
def calc_weighted2 (positions : List α) (smooth_time : α) : List α :=
  calc_weighted2G (pyGetD positions) positions.length smooth_time

/-- calc_spring_raw generic in the read function.  The two advance
parameters stand for the module globals SPRING_ADVANCE and
RESISTANCE_ADVANCE as read at call time. -/
def calc_spring_rawG (spring_advance resistance_advance : α) (get : ℤ → α) (n : ℕ) : List α :=
  let sa := spring_advance * INV_SEG_TIME * INV_SEG_TIME
  let ra := resistance_advance * INV_SEG_TIME
  fillOut n fun i =>
    get i + sa * (get (i - 1) - 2 * get i + get (i + 1)) + ra * (get (i + 1) - get i)

/-- calc_spring_raw from the source. -/
def calc_spring_raw (spring_advance resistance_advance : α) (positions : List α) : List α :=
  calc_spring_rawG spring_advance resistance_advance (pyGetD positions) positions.length

/-- Module load value of SPRING_ADVANCE before the ideal values block. -/
def SPRING_ADVANCE_init : α := 2 / 100000

/-- Module load value of RESISTANCE_ADVANCE before the ideal values block. -/
def RESISTANCE_ADVANCE_init : α := 0

/-- Claim side formulation of one spring estimator step, following the
wording of the specification: the four updates in their stated order,
with the post update head position as first component. -/
def claimSpringStep (ang_freq2 : α) (s : α × α) (c : α) : α × α :=
  let p := s.1 + s.2 * SEG_TIME
  let a := (c - p) * ang_freq2
  let v := s.2 + a * SEG_TIME
  (p, v - v * DAMPING * SEG_TIME)

/-- Claim side index recursion: the state after the first n samples of
the stream c have been processed, starting from state s. -/
def claimSpringIter (ang_freq2 : α) (c : ℕ → α) (s : α × α) : ℕ → α × α
  | 0 => s
  | n + 1 => claimSpringStep ang_freq2 (claimSpringIter ang_freq2 c s n) (c n)

/-- Claim side variant of the box filter whose computed region is the
[offset, n - offset) band stated by the specification, for comparison
with the calc_smooth of the source. -/
def calc_smoothClaimRange (positions : List α) (smooth_time : α) : List α :=
  let offset := time_to_index (smooth_time * (1 / 2))
  let weight := (1 / 2) / (offset : α)
  (List.range positions.length).map fun i : ℕ =>
    if offset ≤ (i : ℤ) ∧ (i : ℤ) < (positions.length : ℤ) - offset then
      (pySlice positions ((i : ℤ) - offset) ((i : ℤ) + offset)).sum * weight
    else 0

end Defs

/-- estimate_spring with the angular frequency of the source,
(SPRING_FREQ * 2 * pi) squared. -/
noncomputable def estimate_spring (positions : List ℝ) : List ℝ :=
  estimate_springW ((SPRING_FREQ * 2 * Real.pi) ^ 2) positions

/-- The ideal SPRING_ADVANCE assigned before plotting runs. -/
noncomputable def SPRING_ADVANCE_ideal : ℝ := 1 / (SPRING_FREQ * 2 * Real.pi) ^ 2

/-- The ideal RESISTANCE_ADVANCE assigned before plotting runs. -/
noncomputable def RESISTANCE_ADVANCE_ideal : ℝ := DAMPING * SPRING_ADVANCE_ideal

/-- The analytically chosen smoothing window of the composite pipeline. -/
noncomputable def SMOOTH_TIME : ℝ := 2 / 3 * 2 * Real.pi * Real.sqrt SPRING_ADVANCE_ideal

/-- gen_updated_position from the source: calc_spring_raw with the ideal
advance constants followed by calc_weighted2 with SMOOTH_TIME. -/
noncomputable def gen_updated_position (positions : List ℝ) : List ℝ :=
  calc_weighted2 (calc_spring_raw SPRING_ADVANCE_ideal RESISTANCE_ADVANCE_ideal positions) SMOOTH_TIME

section BasicLemmas

variable {α : Type} [LinearOrderedField α] [FloorRing α]

theorem INV_SEG_TIME_eq : (INV_SEG_TIME : α) = 10000 := by
  norm_num [INV_SEG_TIME, SEG_TIME]

theorem time_to_index_margin : time_to_index (MARGIN_TIME : α) = 500 := by
  have h : (MARGIN_TIME : α) * INV_SEG_TIME + 1 / 2 = 1001 / 2 := by
    rw [INV_SEG_TIME_eq]; norm_num [MARGIN_TIME]
  rw [time_to_index, pyInt, h, if_pos (by norm_num), Int.floor_eq_iff]
  norm_num

theorem time_to_index_margin2 : time_to_index (2 * MARGIN_TIME : α) = 1000 := by
  have h : (2 * MARGIN_TIME : α) * INV_SEG_TIME + 1 / 2 = 2001 / 2 := by
    rw [INV_SEG_TIME_eq]; norm_num [MARGIN_TIME]
  rw [time_to_index, pyInt, h, if_pos (by norm_num), Int.floor_eq_iff]
  norm_num

theorem time_to_index_eq {t : α} {z : ℤ} (h0 : 0 ≤ t * INV_SEG_TIME + 1 / 2)
    (h1 : (z : α) ≤ t * INV_SEG_TIME + 1 / 2) (h2 : t * INV_SEG_TIME + 1 / 2 < z + 1) :
    time_to_index t = z := by
  rw [time_to_index, pyInt, if_pos h0, Int.floor_eq_iff]
  exact ⟨h1, h2⟩

theorem time_to_index_eq_of_neg {t : α} {z : ℤ} (h0 : ¬ 0 ≤ t * INV_SEG_TIME + 1 / 2)
    (h1 : (z : α) - 1 < t * INV_SEG_TIME + 1 / 2) (h2 : t * INV_SEG_TIME + 1 / 2 ≤ z) :
    time_to_index t = z := by
  rw [time_to_index, pyInt, if_neg h0, Int.ceil_eq_iff]
  exact ⟨h1, h2⟩

theorem mem_pyRange {a b i : ℤ} : i ∈ pyRange a b ↔ a ≤ i ∧ i < b := by
  unfold pyRange
  simp only [List.mem_map, List.mem_range]
  constructor
  · rintro ⟨k, hk, rfl⟩
    omega
  · rintro ⟨h1, h2⟩
    exact ⟨(i - a).toNat, by omega, by omega⟩

theorem mem_indexesN {n : ℕ} {i : ℤ} :
    i ∈ indexesN α n ↔ 500 ≤ i ∧ i < (n : ℤ) - 500 := by
  rw [indexesN, time_to_index_margin, mem_pyRange]

theorem fillOut_length (n : ℕ) (f : ℤ → α) : (fillOut n f).length = n := by
  simp [fillOut]

theorem fillOut_getElem? (n : ℕ) (f : ℤ → α) (i : ℕ) :
    (fillOut n f)[i]? =
      if i < n then
        some (if 500 ≤ (i : ℤ) ∧ (i : ℤ) < (n : ℤ) - 500 then f (i : ℤ) else 0)
      else none := by
  unfold fillOut
  by_cases h : i < n
  · rw [if_pos h, List.getElem?_map, List.getElem?_range h]
    simp [mem_indexesN]
  · rw [if_neg h, List.getElem?_map, List.getElem?_eq_none]
    · rfl
    · simpa using Nat.le_of_not_lt h

theorem pyGetD_eq_getElem {l : List α} {j : ℤ} (h0 : 0 ≤ j) (h1 : j < (l.length : ℤ)) :
    pyGetD l j = l.getD j.toNat 0 := by
  rw [pyGetD]
  simp only [if_neg (by omega : ¬ j < 0)]
  rw [if_pos ⟨h0, h1⟩]

theorem pyGetD_replicate {n : ℕ} {c : α} {j : ℤ} (h0 : 0 ≤ j) (h1 : j < (n : ℤ)) :
    pyGetD (List.replicate n c) j = c := by
  rw [pyGetD_eq_getElem h0 (by simpa using h1)]
  rw [List.getD_eq_getElem?_getD, List.getElem?_replicate, if_pos (by omega)]
  rfl

theorem pyIdxClamp_of_nonneg {n : ℕ} {i : ℤ} (h0 : 0 ≤ i) (h1 : i ≤ (n : ℤ)) :
    pyIdxClamp n i = i.toNat := by
  rw [pyIdxClamp, if_neg (by omega : ¬ i < 0)]
  congr 1
  omega

theorem pySlice_replicate {n : ℕ} {c : α} {a b : ℤ} :
    pySlice (List.replicate n c) a b =
      List.replicate (pyIdxClamp n b - pyIdxClamp n a) c := by
  have hs : pyIdxClamp (List.replicate n c).length a = pyIdxClamp n a := by
    rw [List.length_replicate]
  have he : pyIdxClamp (List.replicate n c).length b = pyIdxClamp n b := by
    rw [List.length_replicate]
  rw [pySlice, hs, he, List.drop_replicate, List.take_replicate]
  congr 1
  have ha : pyIdxClamp n a ≤ n := by
    rw [pyIdxClamp]; split <;> omega
  have hb : pyIdxClamp n b ≤ n := by
    rw [pyIdxClamp]; split <;> omega
  omega

theorem sum_replicate_mul (m : ℕ) (c : α) : (List.replicate m c).sum = (m : α) * c := by
  induction m with
  | zero => simp
  | succ k ih => rw [List.replicate_succ, List.sum_cons, ih]; push_cast; ring

theorem sum_map_range {β : Type} [AddCommMonoid β] (f : ℕ → β) (n : ℕ) :
    ((List.range n).map f).sum = ∑ k in Finset.range n, f k := by
  induction n with
  | zero => simp
  | succ k ih => rw [List.range_succ, List.map_append, List.sum_append, Finset.sum_range_succ, ih]; simp

end BasicLemmas

section SumLemmas

theorem sum_range_two_blocks {β : Type} [AddCommMonoid β] (m : ℕ) (f : ℕ → β) :
    ∑ k in Finset.range (m + m), f k = ∑ k in Finset.range m, (f k + f (m + k)) := by
  rw [Finset.sum_add_distrib]
  have h1 : ∑ k in Finset.range (m + m), f k =
      ∑ k in Finset.Ico 0 m, f k + ∑ k in Finset.Ico m (m + m), f k := by
    rw [Finset.sum_Ico_consecutive f (Nat.zero_le m) (Nat.le_add_right m m),
      ← Finset.range_eq_Ico]
  rw [h1, ← Finset.range_eq_Ico, Finset.sum_Ico_eq_sum_range]
  congr 1
  simp

theorem sumWeightLin (m : ℕ) :
    ∑ k in Finset.range (m + m), ((m : ℤ) - |(k : ℤ) - (m : ℤ)|) = (m : ℤ) ^ 2 := by
  rw [sum_range_two_blocks]
  have h : ∀ k ∈ Finset.range m,
      ((m : ℤ) - |(k : ℤ) - (m : ℤ)|) + ((m : ℤ) - |((m + k : ℕ) : ℤ) - (m : ℤ)|) = (m : ℤ) := by
    intro k hk
    rw [Finset.mem_range] at hk
    have h1 : |(k : ℤ) - (m : ℤ)| = (m : ℤ) - (k : ℤ) := by
      rw [abs_sub_comm, abs_of_nonneg (by omega)]
    have h2 : |((m + k : ℕ) : ℤ) - (m : ℤ)| = (k : ℤ) := by
      rw [show ((m + k : ℕ) : ℤ) - (m : ℤ) = (k : ℤ) by push_cast; ring, abs_of_nonneg (by omega)]
    rw [h1, h2]
    ring
  rw [Finset.sum_congr rfl h, Finset.sum_const, Finset.card_range, nsmul_eq_mul]
  ring

theorem sumWeightQuad (m : ℕ) :
    ∑ k in Finset.range (m + m),
      ((m : ℤ) - |(k : ℤ) - (m : ℤ)|) ^ 2 * (2 * |(k : ℤ) - (m : ℤ)| + (m : ℤ)) = (m : ℤ) ^ 4 := by
  rw [sum_range_two_blocks]
  have h : ∀ k ∈ Finset.range m,
      ((m : ℤ) - |(k : ℤ) - (m : ℤ)|) ^ 2 * (2 * |(k : ℤ) - (m : ℤ)| + (m : ℤ)) +
        ((m : ℤ) - |((m + k : ℕ) : ℤ) - (m : ℤ)|) ^ 2 * (2 * |((m + k : ℕ) : ℤ) - (m : ℤ)| + (m : ℤ)) =
      (m : ℤ) ^ 3 := by
    intro k hk
    rw [Finset.mem_range] at hk
    have h1 : |(k : ℤ) - (m : ℤ)| = (m : ℤ) - (k : ℤ) := by
      rw [abs_sub_comm, abs_of_nonneg (by omega)]
    have h2 : |((m + k : ℕ) : ℤ) - (m : ℤ)| = (k : ℤ) := by
      rw [show ((m + k : ℕ) : ℤ) - (m : ℤ) = (k : ℤ) by push_cast; ring, abs_of_nonneg (by omega)]
    rw [h1, h2]
    ring
  rw [Finset.sum_congr rfl h, Finset.sum_const, Finset.card_range, nsmul_eq_mul]
  ring

end SumLemmas

section ConstSums

variable {α : Type} [LinearOrderedField α] [FloorRing α]

theorem weighted_sum_const {c : α} {i off : ℤ} (h0 : 0 ≤ off) (g : ℤ → α)
    (hg : ∀ j, i - off ≤ j → j < i + off → g j = c) :
    ((pyRange (i - off) (i + off)).map fun j => g j * ((off - |j - i| : ℤ) : α)).sum
      = c * (off : α) ^ 2 := by
  rw [pyRange, List.map_map]
  have h2 : (i + off - (i - off)) = 2 * off := by ring
  rw [h2, sum_map_range]
  have hmm : (2 * off).toNat = off.toNat + off.toNat := by omega
  rw [hmm]
  have hoff : ((off.toNat : ℤ)) = off := Int.toNat_of_nonneg h0
  have hcong : ∀ k ∈ Finset.range (off.toNat + off.toNat),
      (((fun j => g j * ((off - |j - i| : ℤ) : α)) ∘ fun k : ℕ => i - off + (k : ℤ)) k) =
        c * ((((off.toNat : ℤ)) - |(k : ℤ) - ((off.toNat : ℤ))| : ℤ) : α) := by
    intro k hk
    rw [Finset.mem_range] at hk
    have hk2 : (k : ℤ) < 2 * off := by omega
    have hval : g (i - off + (k : ℤ)) = c :=
      hg _ (by omega) (by omega)
    have habs : i - off + (k : ℤ) - i = (k : ℤ) - off := by ring
    simp only [Function.comp_apply, hval, habs, hoff]
  rw [Finset.sum_congr rfl hcong, ← Finset.mul_sum, ← Int.cast_sum, sumWeightLin]
  rw [hoff]
  push_cast
  ring

theorem weighted2_sum_const {c : α} {i off : ℤ} (h0 : 0 ≤ off) (g : ℤ → α)
    (hg : ∀ j, i - off ≤ j → j < i + off → g j = c) :
    ((pyRange (i - off) (i + off)).map fun j =>
        g j * (((off - |j - i|) ^ 2 : ℤ) : α) * (2 * ((|j - i| : ℤ) : α) + (off : α))).sum
      = c * (off : α) ^ 4 := by
  rw [pyRange, List.map_map]
  have h2 : (i + off - (i - off)) = 2 * off := by ring
  rw [h2, sum_map_range]
  have hmm : (2 * off).toNat = off.toNat + off.toNat := by omega
  rw [hmm]
  have hoff : ((off.toNat : ℤ)) = off := Int.toNat_of_nonneg h0
  have hcong : ∀ k ∈ Finset.range (off.toNat + off.toNat),
      (((fun j => g j * (((off - |j - i|) ^ 2 : ℤ) : α) * (2 * ((|j - i| : ℤ) : α) + (off : α))) ∘
          fun k : ℕ => i - off + (k : ℤ)) k) =
        c * (((((off.toNat : ℤ)) - |(k : ℤ) - ((off.toNat : ℤ))|) ^ 2 *
              (2 * |(k : ℤ) - ((off.toNat : ℤ))| + ((off.toNat : ℤ))) : ℤ) : α) := by
    intro k hk
    rw [Finset.mem_range] at hk
    have hk2 : (k : ℤ) < 2 * off := by omega
    have hval : g (i - off + (k : ℤ)) = c :=
      hg _ (by omega) (by omega)
    have habs : i - off + (k : ℤ) - i = (k : ℤ) - off := by ring
    simp only [Function.comp_apply, hval, habs, hoff]
    push_cast
    ring
  rw [Finset.sum_congr rfl hcong, ← Finset.mul_sum, ← Int.cast_sum, sumWeightQuad]
  rw [hoff]
  push_cast
  ring

end ConstSums

section FilterCharacterizations

variable {α : Type} [LinearOrderedField α] [FloorRing α]

theorem calc_averageG_getElem? (get : ℤ → α) (n : ℕ) (st : α) (i : ℕ) :
    (calc_averageG get n st)[i]? =
      if i < n then
        some (if 500 ≤ (i : ℤ) ∧ (i : ℤ) < (n : ℤ) - 500 then
          1 / 2 * (get ((i : ℤ) - time_to_index (st * (1 / 2))) +
            get ((i : ℤ) + time_to_index (st * (1 / 2))))
        else 0)
      else none := by
  unfold calc_averageG
  exact fillOut_getElem? n _ i

theorem calc_smooth_getElem? (positions : List α) (st : α) (i : ℕ) :
    (calc_smooth positions st)[i]? =
      if i < positions.length then
        some (if 500 ≤ (i : ℤ) ∧ (i : ℤ) < (positions.length : ℤ) - 500 then
          (pySlice positions ((i : ℤ) - time_to_index (st * (1 / 2)))
            ((i : ℤ) + time_to_index (st * (1 / 2)))).sum *
            ((1 / 2) / ((time_to_index (st * (1 / 2)) : ℤ) : α))
        else 0)
      else none := by
  unfold calc_smooth
  exact fillOut_getElem? positions.length _ i

theorem calc_weightedG_getElem? (get : ℤ → α) (n : ℕ) (st : α) (i : ℕ) :
    (calc_weightedG get n st)[i]? =
      if i < n then
        some (if 500 ≤ (i : ℤ) ∧ (i : ℤ) < (n : ℤ) - 500 then
          ((pyRange ((i : ℤ) - time_to_index (st * (1 / 2)))
              ((i : ℤ) + time_to_index (st * (1 / 2)))).map fun j =>
            get j * ((time_to_index (st * (1 / 2)) - |j - (i : ℤ)| : ℤ) : α)).sum *
            (1 / ((time_to_index (st * (1 / 2)) : ℤ) : α) ^ 2)
        else 0)
      else none := by
  unfold calc_weightedG
  exact fillOut_getElem? n _ i

theorem calc_weighted2G_getElem? (get : ℤ → α) (n : ℕ) (st : α) (i : ℕ) :
    (calc_weighted2G get n st)[i]? =
      if i < n then
        some (if 500 ≤ (i : ℤ) ∧ (i : ℤ) < (n : ℤ) - 500 then
          ((pyRange ((i : ℤ) - time_to_index (st * (1 / 2)))
              ((i : ℤ) + time_to_index (st * (1 / 2)))).map fun j =>
            get j * (((time_to_index (st * (1 / 2)) - |j - (i : ℤ)|) ^ 2 : ℤ) : α) *
              (2 * ((|j - (i : ℤ)| : ℤ) : α) + ((time_to_index (st * (1 / 2)) : ℤ) : α))).sum *
            (1 / ((time_to_index (st * (1 / 2)) : ℤ) : α) ^ 4)
        else 0)
      else none := by
  unfold calc_weighted2G
  exact fillOut_getElem? n _ i

theorem calc_spring_rawG_getElem? (sa0 ra0 : α) (get : ℤ → α) (n : ℕ) (i : ℕ) :
    (calc_spring_rawG sa0 ra0 get n)[i]? =
      if i < n then
        some (if 500 ≤ (i : ℤ) ∧ (i : ℤ) < (n : ℤ) - 500 then
          get (i : ℤ) + sa0 * INV_SEG_TIME * INV_SEG_TIME *
              (get ((i : ℤ) - 1) - 2 * get (i : ℤ) + get ((i : ℤ) + 1)) +
            ra0 * INV_SEG_TIME * (get ((i : ℤ) + 1) - get (i : ℤ))
        else 0)
      else none := by
  unfold calc_spring_rawG
  exact fillOut_getElem? n _ i

theorem calc_average_length (positions : List α) (st : α) :
    (calc_average positions st).length = positions.length := by
  unfold calc_average calc_averageG
  exact fillOut_length _ _

theorem calc_smooth_length (positions : List α) (st : α) :
    (calc_smooth positions st).length = positions.length := by
  unfold calc_smooth
  exact fillOut_length _ _

theorem calc_weighted_length (positions : List α) (st : α) :
    (calc_weighted positions st).length = positions.length := by
  unfold calc_weighted calc_weightedG
  exact fillOut_length _ _

theorem calc_weighted2_length (positions : List α) (st : α) :
    (calc_weighted2 positions st).length = positions.length := by
  unfold calc_weighted2 calc_weighted2G
  exact fillOut_length _ _

theorem calc_spring_raw_length (sa0 ra0 : α) (positions : List α) :
    (calc_spring_raw sa0 ra0 positions).length = positions.length := by
  unfold calc_spring_raw calc_spring_rawG
  exact fillOut_length _ _

end FilterCharacterizations

section SpringLemmas

variable {α : Type} [LinearOrderedField α] [FloorRing α]

theorem claimSpringIter_shift (ang_freq2 : α) (c : ℕ → α) (s : α × α) (n : ℕ) :
    claimSpringIter ang_freq2 c s (n + 1) =
      claimSpringIter ang_freq2 (fun j => c (j + 1)) (claimSpringStep ang_freq2 s (c 0)) n := by
  induction n with
  | zero => rfl
  | succ k ih =>
    rw [claimSpringIter, ih]
    rfl

theorem estimate_springGo_getElem? (ang_freq2 : α) :
    ∀ (ps : List α) (s : α × α) (c : ℕ → α) (i : ℕ), i < ps.length →
      (∀ j, j ≤ i → c j = ps.getD j 0) →
      (estimate_springGo ang_freq2 s ps)[i]? =
        some (claimSpringIter ang_freq2 c s (i + 1)).1 := by
  intro ps
  induction ps with
  | nil =>
    intro s c i hi
    simp at hi
  | cons p rest ih =>
    intro s c i hi hc
    cases i with
    | zero =>
      have hc0 : c 0 = p := by simpa using hc 0 le_rfl
      rw [estimate_springGo]
      simp only [List.getElem?_cons_zero]
      rw [claimSpringIter, claimSpringIter, hc0]
      rfl
    | succ i2 =>
      rw [estimate_springGo]
      simp only [List.getElem?_cons_succ]
      have hi2 : i2 < rest.length := by simpa using hi
      have hc2 : ∀ j, j ≤ i2 → (fun j => c (j + 1)) j = rest.getD j 0 := by
        intro j hj
        have := hc (j + 1) (by omega)
        simpa using this
      have hc0 : c 0 = p := by simpa using hc 0 (by omega)
      rw [claimSpringIter_shift ang_freq2 c s (i2 + 1), hc0]
      exact ih (springStep ang_freq2 s p).1 (fun j => c (j + 1)) i2 hi2 hc2

theorem calc_smoothClaimRange_getElem? (positions : List α) (st : α) (i : ℕ)
    (h : i < positions.length) :
    (calc_smoothClaimRange positions st)[i]? =
      some (if time_to_index (st * (1 / 2)) ≤ (i : ℤ) ∧
          (i : ℤ) < (positions.length : ℤ) - time_to_index (st * (1 / 2)) then
        (pySlice positions ((i : ℤ) - time_to_index (st * (1 / 2)))
          ((i : ℤ) + time_to_index (st * (1 / 2)))).sum *
          ((1 / 2) / ((time_to_index (st * (1 / 2)) : ℤ) : α))
      else 0) := by
  unfold calc_smoothClaimRange
  rw [List.getElem?_map, List.getElem?_range h]
  rfl

end SpringLemmas

section ValueLemmas

variable {α : Type} [LinearOrderedField α] [FloorRing α]

theorem tti_one : time_to_index ((1 / 5000 : α) * (1 / 2)) = 1 := by
  apply time_to_index_eq <;> rw [INV_SEG_TIME_eq] <;> norm_num

theorem tti_two : time_to_index ((1 / 2500 : α) * (1 / 2)) = 2 := by
  apply time_to_index_eq <;> rw [INV_SEG_TIME_eq] <;> norm_num

theorem tti_zero : time_to_index ((1 / 100000 : α) * (1 / 2)) = 0 := by
  apply time_to_index_eq <;> rw [INV_SEG_TIME_eq] <;> norm_num

theorem tti_neg : time_to_index ((-1 : α) * (1 / 2)) = -4999 := by
  apply time_to_index_eq_of_neg <;> rw [INV_SEG_TIME_eq] <;> norm_num

end ValueLemmas

section Claims

/-- Claim C2: the spring response estimator starts from head position and
head velocity zero and performs, for each sample in order, exactly the four
updates position integration, acceleration from displacement times the
squared angular frequency (2 pi times 35), velocity integration, explicit
Euler damping decay, in that order, and the output sample at index i is the
head position produced by the first update for that index.  The source loop
estimate_spring agrees at every index with the claim side recursion
claimSpringIter built from exactly those four ordered updates. -/
theorem claim2_estimate_spring_step_order (ps : List ℝ) (i : ℕ) (h : i < ps.length) :
    (estimate_spring ps)[i]? =
      some (claimSpringIter ((2 * Real.pi * 35) ^ 2) (fun j => ps.getD j 0) (0, 0) (i + 1)).1 := by
  have hfreq : ((SPRING_FREQ * 2 * Real.pi) ^ 2 : ℝ) = (2 * Real.pi * 35) ^ 2 := by
    rw [SPRING_FREQ]; ring
  rw [estimate_spring, estimate_springW, hfreq]
  exact estimate_springGo_getElem? _ ps (0, 0) _ i h (fun j hj => rfl)

/-- Claim C2 witness: the theorem applied to the singleton input list. -/
theorem claim2_witness :
    0 < ([(1 : ℝ)]).length ∧
      (estimate_spring [(1 : ℝ)])[0]? =
        some (claimSpringIter ((2 * Real.pi * 35) ^ 2)
          (fun j => ([(1 : ℝ)]).getD j 0) (0, 0) 1).1 :=
  ⟨by norm_num, claim2_estimate_spring_step_order [(1 : ℝ)] 0 (by norm_num)⟩

/-- Claim C4: each of the three position kernels vanishes at relative time
zero, and at the full segment duration every kernel reproduces the constant
acceleration displacement v0 T + a T squared / 2, exactly in the exact
arithmetic of the embedding, for every positive duration. -/
theorem claim4_kernel_endpoints {α : Type} [LinearOrderedField α] (v0 a T : α) (hT : 0 < T) :
    get_acc_pos_ao2 0 v0 a T = 0 ∧ get_acc_pos_ao4 0 v0 a T = 0 ∧ get_acc_pos_ao6 0 v0 a T = 0 ∧
    get_acc_pos_ao2 T v0 a T = v0 * T + 1 / 2 * a * T ^ 2 ∧
    get_acc_pos_ao4 T v0 a T = v0 * T + 1 / 2 * a * T ^ 2 ∧
    get_acc_pos_ao6 T v0 a T = v0 * T + 1 / 2 * a * T ^ 2 := by
  have hT0 : T ≠ 0 := ne_of_gt hT
  unfold get_acc_pos_ao2 get_acc_pos_ao4 get_acc_pos_ao6
  refine ⟨by ring, by ring, by ring, by ring, ?_, ?_⟩
  · field_simp
    ring
  · field_simp
    ring

/-- Claim C4 witness: the kernel endpoint identities at v0 = 2, a = 3, T = 1. -/
theorem claim4_witness :
    (0 : ℚ) < 1 ∧
      (get_acc_pos_ao2 0 2 3 (1 : ℚ) = 0 ∧ get_acc_pos_ao4 0 2 3 (1 : ℚ) = 0 ∧
       get_acc_pos_ao6 0 2 3 (1 : ℚ) = 0 ∧
       get_acc_pos_ao2 1 2 3 (1 : ℚ) = 2 * 1 + 1 / 2 * 3 * 1 ^ 2 ∧
       get_acc_pos_ao4 1 2 3 (1 : ℚ) = 2 * 1 + 1 / 2 * 3 * 1 ^ 2 ∧
       get_acc_pos_ao6 1 2 3 (1 : ℚ) = 2 * 1 + 1 / 2 * 3 * 1 ^ 2) :=
  ⟨by norm_num, claim4_kernel_endpoints 2 3 1 (by norm_num)⟩

/-- Claim C7 counterexample: on the single zero duration move (0, 0, 0.1
replaced by duration 0) the generator emits one sample, not zero samples:
at the start of a run the cursor t sits exactly on the segment boundary,
the while loop condition t <= end_t holds once, and a sample is appended.
This falsifies the claim that a zero duration segment never emits samples. -/
theorem claim7_counterexample :
    gen_positions get_acc_pos_ao2 ([⟨0, 0, some 0⟩] : List (Move ℚ)) = [0] ∧
    gen_positions get_acc_pos_ao2 ([⟨0, 0, some 0⟩] : List (Move ℚ)) ≠ [] := by
  have h : gen_positions get_acc_pos_ao2 ([⟨0, 0, some 0⟩] : List (Move ℚ)) = [0] := by
    rw [gen_positions]
    simp only [List.foldl_cons, List.foldl_nil, gen_segment, move_dur, segAccel]
    have hcnt : segCount (0 : ℚ) (0 + 0) = 1 := by
      rw [segCount, if_pos (by norm_num)]
      norm_num
    rw [hcnt]
    simp [get_acc_pos_ao2]
  exact ⟨h, by rw [h]; simp⟩

/-- Claim C7 amended: under the default kernel selection of the source
(get_acc_pos = get_acc_pos_ao2, the order two kernel, which contains no
division), a segment whose resolved duration is zero leaves the
displacement accumulator start_d and the segment time accumulator start_t
unchanged, but it emits exactly one sample (of value start_d) and advances
the sampling cursor by one sample period when the cursor has not yet
passed the segment boundary (t <= start_t); it emits nothing and leaves
the cursor in place otherwise, for every state reachable by the generator
(start_t <= t).  Under the order four and order six kernel selections a
zero duration segment instead stops the source with an unguarded zero
division at inv_accel_t = 1 / move_t, an error path outside this
embedding, so those selections are not covered here. -/
theorem claim7_zero_duration_amended {α : Type} [LinearOrderedField α] [FloorRing α]
    (s : GenState α) (m : Move α) (hd : move_dur m = 0) (ht : s.start_t ≤ s.t) :
    gen_segment get_acc_pos_ao2 s m =
      ⟨s.out ++ (if s.t ≤ s.start_t then [s.start_d] else []),
        s.start_d, s.start_t,
        s.t + (if s.t ≤ s.start_t then SEG_TIME else 0)⟩ := by
  have hk0 : ∀ r : α, get_acc_pos_ao2 0 m.v0 r 0 = 0 := by
    intro r
    simp only [get_acc_pos_ao2]
    ring
  rw [gen_segment, hd]
  by_cases hts : s.t ≤ s.start_t
  · have hteq : s.t = s.start_t := le_antisymm hts ht
    have hcnt : segCount s.t (s.start_t + 0) = 1 := by
      rw [segCount, if_pos (by rw [add_zero]; exact hts)]
      rw [add_zero, hteq, sub_self, zero_mul, Int.floor_zero]
      rfl
    rw [hcnt, if_pos hts, if_pos hts]
    have h1 : List.range 1 = [0] := rfl
    rw [h1]
    simp only [List.map_cons, List.map_nil, GenState.mk.injEq, Nat.cast_zero, Nat.cast_one,
      zero_mul, add_zero, one_mul]
    refine ⟨?_, ?_, trivial, trivial⟩
    · rw [hteq, sub_self, hk0, add_zero]
    · rw [hk0, add_zero]
  · have hcnt : segCount s.t (s.start_t + 0) = 0 := by
      rw [segCount, if_neg (by rw [add_zero]; exact hts)]
    rw [hcnt, if_neg hts, if_neg hts]
    simp only [List.range_zero, List.map_nil, List.append_nil, GenState.mk.injEq, Nat.cast_zero,
      zero_mul, add_zero]
    exact ⟨trivial, by rw [hk0, add_zero], trivial, trivial⟩

/-- Claim C7 witness: the amended theorem applied with the order two kernel
to a state whose cursor has passed the boundary and to a move whose duration
is derived (equal velocities, duration none, hence zero). -/
theorem claim7_witness :
    move_dur (⟨5, 5, none⟩ : Move ℚ) = 0 ∧ (2 : ℚ) ≤ 3 ∧
      gen_segment get_acc_pos_ao2 (⟨[], 1, 2, 3⟩ : GenState ℚ) ⟨5, 5, none⟩ =
        ⟨[] ++ (if (3 : ℚ) ≤ 2 then [(1 : ℚ)] else []), 1, 2,
          3 + (if (3 : ℚ) ≤ 2 then SEG_TIME else 0)⟩ := by
  have hd : move_dur (⟨5, 5, none⟩ : Move ℚ) = 0 := by
    simp [move_dur, ACCEL]
  exact ⟨hd, by norm_num,
    claim7_zero_duration_amended ⟨[], 1, 2, 3⟩ ⟨5, 5, none⟩ hd (by norm_num)⟩

/-- Claim C3 counterexample: the claim asserts that the nonzero range of the
pipeline invocation of calc_spring_raw is exactly [1, N - 1).  On the list
[0, 0, 1, 0] the source filter returns all zeros (its computed band is
[500, N - 500), empty for N = 4), while the claimed second difference
formula at index 1 has the nonzero value sa + ra.  So the output does not
agree with the formula on [1, N - 1). -/
theorem claim3_counterexample :
    calc_spring_raw SPRING_ADVANCE_ideal RESISTANCE_ADVANCE_ideal ([0, 0, 1, 0] : List ℝ) =
      [0, 0, 0, 0] ∧
    (0 : ℝ) + SPRING_ADVANCE_ideal * INV_SEG_TIME * INV_SEG_TIME * (0 - 2 * 0 + 1) +
        RESISTANCE_ADVANCE_ideal * INV_SEG_TIME * (1 - 0) ≠ 0 := by
  constructor
  · unfold calc_spring_raw calc_spring_rawG fillOut
    rw [show List.range (List.length ([0, 0, 1, 0] : List ℝ)) = [0, 1, 2, 3] from rfl]
    norm_num [mem_indexesN]
  · have hsa : 0 < SPRING_ADVANCE_ideal := by
      rw [SPRING_ADVANCE_ideal, SPRING_FREQ]
      positivity
    have hra : 0 < RESISTANCE_ADVANCE_ideal := by
      rw [RESISTANCE_ADVANCE_ideal, DAMPING]
      exact mul_pos (by norm_num) hsa
    have hpos : (0 : ℝ) <
        0 + SPRING_ADVANCE_ideal * INV_SEG_TIME * INV_SEG_TIME * (0 - 2 * 0 + 1) +
          RESISTANCE_ADVANCE_ideal * INV_SEG_TIME * (1 - 0) := by
      rw [INV_SEG_TIME_eq]
      nlinarith
    exact ne_of_gt hpos

/-- Claim C3 amended: in the pipeline invocation of calc_spring_raw the
advance constants are the analytic values 1 / (2 pi 35) squared and
30 / (2 pi 35) squared (not the zero module load value), the output obeys
out i = pos i + sa (pos (i-1) - 2 pos i + pos (i+1)) + ra (pos (i+1) - pos i)
with sa and ra the advances divided by the sample period squared and the
sample period, and the possibly nonzero output band is
[drop, N - drop) with drop = round(MARGIN_TIME / SAMPLE_PERIOD) = 500,
not [1, N - 1); all other entries are zero. -/
theorem claim3_spring_raw_amended (positions : List ℝ) :
    calc_spring_raw SPRING_ADVANCE_ideal RESISTANCE_ADVANCE_ideal positions =
      (List.range positions.length).map fun i : ℕ =>
        if 500 ≤ (i : ℤ) ∧ (i : ℤ) < (positions.length : ℤ) - 500 then
          pyGetD positions (i : ℤ) +
            1 / (2 * Real.pi * 35) ^ 2 * INV_SEG_TIME * INV_SEG_TIME *
              (pyGetD positions ((i : ℤ) - 1) - 2 * pyGetD positions (i : ℤ) +
                pyGetD positions ((i : ℤ) + 1)) +
            30 * (1 / (2 * Real.pi * 35) ^ 2) * INV_SEG_TIME *
              (pyGetD positions ((i : ℤ) + 1) - pyGetD positions (i : ℤ))
        else 0 := by
  have hsa : SPRING_ADVANCE_ideal = 1 / (2 * Real.pi * 35) ^ 2 := by
    rw [SPRING_ADVANCE_ideal, SPRING_FREQ]
    ring
  have hra : RESISTANCE_ADVANCE_ideal = 30 * (1 / (2 * Real.pi * 35) ^ 2) := by
    rw [RESISTANCE_ADVANCE_ideal, DAMPING, hsa]
  unfold calc_spring_raw calc_spring_rawG fillOut
  apply List.map_congr_left
  intro i hi
  simp only [mem_indexesN]
  split_ifs with h
  · rw [hsa, hra]
  · rfl

/-- Claim C5 counterexample: the claim asserts the filter computes its
value exactly on [offset, N - offset).  For the box filter on a constant
list of 1002 ones with offset 1, index 1 lies in that band and the claimed
computation (calc_smoothClaimRange, written from the specification text)
yields 1 there, but the source filter returns 0: its computed band is
[500, N - 500), fixed by MARGIN_TIME, not by the filter window. -/
theorem claim5_counterexample :
    (calc_smooth (List.replicate 1002 (1 : ℚ)) (1 / 5000))[1]? = some 0 ∧
      (calc_smoothClaimRange (List.replicate 1002 (1 : ℚ)) (1 / 5000))[1]? = some 1 := by
  constructor
  · rw [calc_smooth_getElem?, List.length_replicate]
    rw [if_pos (by norm_num), if_neg (by push_cast; norm_num)]
  · rw [calc_smoothClaimRange_getElem? _ _ 1 (by rw [List.length_replicate]; norm_num)]
    rw [List.length_replicate, tti_one]
    rw [if_pos (by push_cast; norm_num)]
    rw [pySlice_replicate]
    have hc1 : pyIdxClamp 1002 (((1 : ℕ) : ℤ) - 1) = 0 := by
      rw [pyIdxClamp_of_nonneg (by norm_num) (by norm_num)]
      omega
    have hc2 : pyIdxClamp 1002 (((1 : ℕ) : ℤ) + 1) = 2 := by
      rw [pyIdxClamp_of_nonneg (by norm_num) (by norm_num)]
      omega
    rw [hc1, hc2, sum_replicate_mul]
    norm_num

/-- Claim C5 amended: for every smooth time whose derived window offset
satisfies 1 <= offset <= drop = 500 (the only regime in which the source
completes: at offset zero the box and weighted filters stop with a zero
division at their weight computation, and at offset above drop the direct
indexing filters stop with an out of range subscript whenever the band is
nonempty), each filter output has the length of its input, the computed
band is [drop, N - drop) with drop fixed by MARGIN_TIME and independent of
the filter window offset, every entry outside that band is zero, and
inside the band each filter computes its two sided formula, whose reads
all lie inside the input under these offset bounds. -/
theorem claim5_filters_range_amended {α : Type} [LinearOrderedField α] [FloorRing α]
    (positions : List α) (st : α) (i : ℕ)
    (h1 : 1 ≤ time_to_index (st * (1 / 2))) (h5 : time_to_index (st * (1 / 2)) ≤ 500) :
    (calc_average positions st).length = positions.length ∧
    (calc_smooth positions st).length = positions.length ∧
    (calc_weighted positions st).length = positions.length ∧
    (calc_weighted2 positions st).length = positions.length ∧
    (calc_average positions st)[i]? =
      (if i < positions.length then
        some (if 500 ≤ (i : ℤ) ∧ (i : ℤ) < (positions.length : ℤ) - 500 then
          1 / 2 * (pyGetD positions ((i : ℤ) - time_to_index (st * (1 / 2))) +
            pyGetD positions ((i : ℤ) + time_to_index (st * (1 / 2))))
        else 0)
      else none) ∧
    (calc_smooth positions st)[i]? =
      (if i < positions.length then
        some (if 500 ≤ (i : ℤ) ∧ (i : ℤ) < (positions.length : ℤ) - 500 then
          (pySlice positions ((i : ℤ) - time_to_index (st * (1 / 2)))
            ((i : ℤ) + time_to_index (st * (1 / 2)))).sum *
            ((1 / 2) / ((time_to_index (st * (1 / 2)) : ℤ) : α))
        else 0)
      else none) ∧
    (calc_weighted positions st)[i]? =
      (if i < positions.length then
        some (if 500 ≤ (i : ℤ) ∧ (i : ℤ) < (positions.length : ℤ) - 500 then
          ((pyRange ((i : ℤ) - time_to_index (st * (1 / 2)))
              ((i : ℤ) + time_to_index (st * (1 / 2)))).map fun j =>
            pyGetD positions j * ((time_to_index (st * (1 / 2)) - |j - (i : ℤ)| : ℤ) : α)).sum *
            (1 / ((time_to_index (st * (1 / 2)) : ℤ) : α) ^ 2)
        else 0)
      else none) ∧
    (calc_weighted2 positions st)[i]? =
      (if i < positions.length then
        some (if 500 ≤ (i : ℤ) ∧ (i : ℤ) < (positions.length : ℤ) - 500 then
          ((pyRange ((i : ℤ) - time_to_index (st * (1 / 2)))
              ((i : ℤ) + time_to_index (st * (1 / 2)))).map fun j =>
            pyGetD positions j * (((time_to_index (st * (1 / 2)) - |j - (i : ℤ)|) ^ 2 : ℤ) : α) *
              (2 * ((|j - (i : ℤ)| : ℤ) : α) + ((time_to_index (st * (1 / 2)) : ℤ) : α))).sum *
            (1 / ((time_to_index (st * (1 / 2)) : ℤ) : α) ^ 4)
        else 0)
      else none) := by
  refine ⟨calc_average_length _ _, calc_smooth_length _ _, calc_weighted_length _ _,
    calc_weighted2_length _ _, ?_, calc_smooth_getElem? _ _ _, ?_, ?_⟩
  · unfold calc_average
    exact calc_averageG_getElem? _ _ _ _
  · unfold calc_weighted
    exact calc_weightedG_getElem? _ _ _ _
  · unfold calc_weighted2
    exact calc_weighted2G_getElem? _ _ _ _

/-- Claim C5 witness: the amended theorem applied to the singleton input
with window offset 1 at index 0. -/
theorem claim5_witness :
    (1 ≤ time_to_index ((1 / 5000 : ℚ) * (1 / 2)) ∧
        time_to_index ((1 / 5000 : ℚ) * (1 / 2)) ≤ 500) ∧
      ((calc_average [(3 : ℚ)] (1 / 5000)).length = ([(3 : ℚ)]).length ∧
        (calc_smooth [(3 : ℚ)] (1 / 5000)).length = ([(3 : ℚ)]).length ∧
        (calc_weighted [(3 : ℚ)] (1 / 5000)).length = ([(3 : ℚ)]).length ∧
        (calc_weighted2 [(3 : ℚ)] (1 / 5000)).length = ([(3 : ℚ)]).length ∧
        (calc_average [(3 : ℚ)] (1 / 5000))[0]? =
          (if 0 < ([(3 : ℚ)]).length then
            some (if 500 ≤ ((0 : ℕ) : ℤ) ∧ ((0 : ℕ) : ℤ) < (([(3 : ℚ)]).length : ℤ) - 500 then
              1 / 2 * (pyGetD [(3 : ℚ)]
                  (((0 : ℕ) : ℤ) - time_to_index ((1 / 5000 : ℚ) * (1 / 2))) +
                pyGetD [(3 : ℚ)]
                  (((0 : ℕ) : ℤ) + time_to_index ((1 / 5000 : ℚ) * (1 / 2))))
            else 0)
          else none) ∧
        (calc_smooth [(3 : ℚ)] (1 / 5000))[0]? =
          (if 0 < ([(3 : ℚ)]).length then
            some (if 500 ≤ ((0 : ℕ) : ℤ) ∧ ((0 : ℕ) : ℤ) < (([(3 : ℚ)]).length : ℤ) - 500 then
              (pySlice [(3 : ℚ)] (((0 : ℕ) : ℤ) - time_to_index ((1 / 5000 : ℚ) * (1 / 2)))
                (((0 : ℕ) : ℤ) + time_to_index ((1 / 5000 : ℚ) * (1 / 2)))).sum *
                ((1 / 2) / ((time_to_index ((1 / 5000 : ℚ) * (1 / 2)) : ℤ) : ℚ))
            else 0)
          else none) ∧
        (calc_weighted [(3 : ℚ)] (1 / 5000))[0]? =
          (if 0 < ([(3 : ℚ)]).length then
            some (if 500 ≤ ((0 : ℕ) : ℤ) ∧ ((0 : ℕ) : ℤ) < (([(3 : ℚ)]).length : ℤ) - 500 then
              ((pyRange (((0 : ℕ) : ℤ) - time_to_index ((1 / 5000 : ℚ) * (1 / 2)))
                  (((0 : ℕ) : ℤ) + time_to_index ((1 / 5000 : ℚ) * (1 / 2)))).map fun j =>
                pyGetD [(3 : ℚ)] j *
                  ((time_to_index ((1 / 5000 : ℚ) * (1 / 2)) - |j - ((0 : ℕ) : ℤ)| : ℤ) : ℚ)).sum *
                (1 / ((time_to_index ((1 / 5000 : ℚ) * (1 / 2)) : ℤ) : ℚ) ^ 2)
            else 0)
          else none) ∧
        (calc_weighted2 [(3 : ℚ)] (1 / 5000))[0]? =
          (if 0 < ([(3 : ℚ)]).length then
            some (if 500 ≤ ((0 : ℕ) : ℤ) ∧ ((0 : ℕ) : ℤ) < (([(3 : ℚ)]).length : ℤ) - 500 then
              ((pyRange (((0 : ℕ) : ℤ) - time_to_index ((1 / 5000 : ℚ) * (1 / 2)))
                  (((0 : ℕ) : ℤ) + time_to_index ((1 / 5000 : ℚ) * (1 / 2)))).map fun j =>
                pyGetD [(3 : ℚ)] j *
                  (((time_to_index ((1 / 5000 : ℚ) * (1 / 2)) - |j - ((0 : ℕ) : ℤ)|) ^ 2 : ℤ) : ℚ) *
                  (2 * ((|j - ((0 : ℕ) : ℤ)| : ℤ) : ℚ) +
                    ((time_to_index ((1 / 5000 : ℚ) * (1 / 2)) : ℤ) : ℚ))).sum *
                (1 / ((time_to_index ((1 / 5000 : ℚ) * (1 / 2)) : ℤ) : ℚ) ^ 4)
            else 0)
          else none)) :=
  ⟨⟨by rw [tti_one], by rw [tti_one]; norm_num⟩,
    claim5_filters_range_amended [(3 : ℚ)] (1 / 5000) 0 (by rw [tti_one])
      (by rw [tti_one]; norm_num)⟩

/-- Claim C6 counterexample: trimming deletes only trailing samples, so the
first sample of the input (value 0 of the list 0..1000, an index far below
drop = 500) is still the first sample of the trimmed output [[0]], refuting
the claim that the first drop samples are never present in the output. -/
theorem claim6_counterexample :
    trim_lists [(List.range 1001).map fun k : ℕ => (k : ℚ)] = [[0]] ∧
      ((List.range 1001).map fun k : ℕ => (k : ℚ))[0]? = some 0 := by
  constructor
  · show ((((List.range 1001).map fun k : ℕ => (k : ℚ)) :: []).map
        (trim_list ((((List.range 1001).map fun k : ℕ => (k : ℚ)).length : ℤ) -
          time_to_index (2 * MARGIN_TIME : ℚ)))) = [[0]]
    rw [List.length_map, List.length_range, time_to_index_margin2]
    rw [show (((1001 : ℕ) : ℤ) - 1000) = 1 by omega]
    rw [List.map_cons, List.map_nil, trim_list]
    have hcl : pyIdxClamp ((List.range 1001).map fun k : ℕ => (k : ℚ)).length (1 : ℤ) = 1 := by
      rw [List.length_map, List.length_range,
        pyIdxClamp_of_nonneg (by norm_num) (by norm_num)]
      omega
    rw [hcl, ← List.map_take, List.take_range]
    rw [show min 1 1001 = 1 from rfl, show List.range 1 = [0] from rfl]
    simp
  · rw [List.getElem?_map, List.getElem?_range (by norm_num)]
    norm_num

/-- Claim C6 amended: trimming a group of sequences of equal length L with
L at least 1000 produces outputs of equal length
L - round(2 MARGIN_TIME / SAMPLE_PERIOD) = L - 1000, obtained by deleting
the last 1000 samples of each sequence; each output is the unchanged
initial segment of its input, so the first drop samples remain present. -/
theorem claim6_trim_amended {α : Type} [LinearOrderedField α] [FloorRing α]
    (L : ℕ) (ls : List (List α)) (hne : ls ≠ [])
    (hlen : ∀ l ∈ ls, l.length = L) (hL : 1000 ≤ L) :
    trim_lists ls = (ls.map fun l => l.take (L - 1000)) ∧
    ∀ l2 ∈ trim_lists ls, l2.length = L - 1000 := by
  obtain ⟨l0, rest, rfl⟩ : ∃ l0 rest, ls = l0 :: rest := by
    cases ls with
    | nil => exact absurd rfl hne
    | cons a b => exact ⟨a, b, rfl⟩
  have hl0 : l0.length = L := hlen l0 (by simp)
  have hmap : trim_lists (l0 :: rest) = ((l0 :: rest).map fun l => l.take (L - 1000)) := by
    show ((l0 :: rest).map
      (trim_list ((l0.length : ℤ) - time_to_index (2 * MARGIN_TIME : α)))) = _
    rw [hl0, time_to_index_margin2]
    apply List.map_congr_left
    intro l hl
    have hcl : pyIdxClamp l.length ((L : ℤ) - 1000) = L - 1000 := by
      rw [hlen l hl, pyIdxClamp_of_nonneg (by omega) (by omega)]
      omega
    rw [trim_list, hcl]
  refine ⟨hmap, ?_⟩
  intro l2 hl2
  rw [hmap] at hl2
  obtain ⟨l, hl, rfl⟩ := List.mem_map.mp hl2
  rw [List.length_take, hlen l hl]
  omega

/-- Claim C6 witness: the amended theorem applied to the single list
0..1000 of length 1001. -/
theorem claim6_witness :
    ([(List.range 1001).map fun k : ℕ => (k : ℚ)] ≠ []) ∧
      (∀ l ∈ [(List.range 1001).map fun k : ℕ => (k : ℚ)], l.length = 1001) ∧
      1000 ≤ 1001 ∧
      (trim_lists [(List.range 1001).map fun k : ℕ => (k : ℚ)] =
          ([(List.range 1001).map fun k : ℕ => (k : ℚ)].map fun l => l.take (1001 - 1000)) ∧
        ∀ l2 ∈ trim_lists [(List.range 1001).map fun k : ℕ => (k : ℚ)],
          l2.length = 1001 - 1000) := by
  have hlen : ∀ l ∈ [(List.range 1001).map fun k : ℕ => (k : ℚ)], l.length = 1001 := by
    intro l hl
    rw [List.mem_singleton] at hl
    rw [hl, List.length_map, List.length_range]
  exact ⟨by simp, hlen, by norm_num,
    claim6_trim_amended 1001 [(List.range 1001).map fun k : ℕ => (k : ℚ)] (by simp) hlen
      (by norm_num)⟩

/-- Claim C8 counterexample: the claim asserts the weighted filter returns
the constant at every index of its valid range [offset, N - offset).  With
offset 1 on 1002 copies of 23, index 1 lies in that range but the source
returns 0 there, because its computed band starts at drop = 500. -/
theorem claim8_counterexample :
    time_to_index ((1 / 5000 : ℚ) * (1 / 2)) = 1 ∧
      (calc_weighted (List.replicate 1002 (23 : ℚ)) (1 / 5000))[1]? = some 0 := by
  refine ⟨tti_one, ?_⟩
  unfold calc_weighted
  rw [List.length_replicate, calc_weightedG_getElem?]
  rw [if_pos (by norm_num), if_neg (by push_cast; norm_num)]

/-- Claim C8 amended: on the computed band [drop, N - drop) (drop = 500)
and for any window with 1 <= offset <= drop, the box, weighted and
weighted2 filters all return the constant of a constant input unchanged;
the triangular weights sum to offset squared and the quadratic weights to
offset to the fourth, cancelling the normalisation factors. -/
theorem claim8_constant_preservation_amended {α : Type} [LinearOrderedField α] [FloorRing α]
    (n : ℕ) (c : α) (st : α) (i : ℕ)
    (h1 : 1 ≤ time_to_index (st * (1 / 2))) (h5 : time_to_index (st * (1 / 2)) ≤ 500)
    (hlo : 500 ≤ (i : ℤ)) (hhi : (i : ℤ) < (n : ℤ) - 500) :
    (calc_smooth (List.replicate n c) st)[i]? = some c ∧
    (calc_weighted (List.replicate n c) st)[i]? = some c ∧
    (calc_weighted2 (List.replicate n c) st)[i]? = some c := by
  have hin : i < n := by omega
  have hoffα : (1 : α) ≤ ((time_to_index (st * (1 / 2)) : ℤ) : α) := by
    exact_mod_cast Int.cast_le.mpr h1
  have hne : ((time_to_index (st * (1 / 2)) : ℤ) : α) ≠ 0 :=
    ne_of_gt (lt_of_lt_of_le zero_lt_one hoffα)
  have hg : ∀ j : ℤ, (i : ℤ) - time_to_index (st * (1 / 2)) ≤ j →
      j < (i : ℤ) + time_to_index (st * (1 / 2)) → pyGetD (List.replicate n c) j = c := by
    intro j hj1 hj2
    exact pyGetD_replicate (by omega) (by omega)
  refine ⟨?_, ?_, ?_⟩
  · rw [calc_smooth_getElem?, List.length_replicate, if_pos hin, if_pos ⟨hlo, hhi⟩]
    rw [pySlice_replicate]
    have hc1 : pyIdxClamp n ((i : ℤ) - time_to_index (st * (1 / 2))) =
        ((i : ℤ) - time_to_index (st * (1 / 2))).toNat :=
      pyIdxClamp_of_nonneg (by omega) (by omega)
    have hc2 : pyIdxClamp n ((i : ℤ) + time_to_index (st * (1 / 2))) =
        ((i : ℤ) + time_to_index (st * (1 / 2))).toNat :=
      pyIdxClamp_of_nonneg (by omega) (by omega)
    rw [hc1, hc2, sum_replicate_mul]
    have hcount : ((((i : ℤ) + time_to_index (st * (1 / 2))).toNat -
        ((i : ℤ) - time_to_index (st * (1 / 2))).toNat : ℕ) : α) =
        2 * ((time_to_index (st * (1 / 2)) : ℤ) : α) := by
      rw [← Int.cast_natCast]
      rw [show ((((i : ℤ) + time_to_index (st * (1 / 2))).toNat -
          ((i : ℤ) - time_to_index (st * (1 / 2))).toNat : ℕ) : ℤ) =
          2 * time_to_index (st * (1 / 2)) by omega]
      push_cast
      ring
    rw [hcount]
    have hgen : ∀ y d : α, y ≠ 0 → 2 * y * d * (1 / 2 / y) = d := by
      intro y d hy
      field_simp
    congr 1
    exact hgen _ _ hne
  · unfold calc_weighted
    rw [List.length_replicate, calc_weightedG_getElem?, if_pos hin, if_pos ⟨hlo, hhi⟩]
    rw [weighted_sum_const (by omega) _ hg]
    congr 1
    rw [mul_one_div, mul_div_assoc, div_self (pow_ne_zero 2 hne), mul_one]
  · unfold calc_weighted2
    rw [List.length_replicate, calc_weighted2G_getElem?, if_pos hin, if_pos ⟨hlo, hhi⟩]
    rw [weighted2_sum_const (by omega) _ hg]
    congr 1
    rw [mul_one_div, mul_div_assoc, div_self (pow_ne_zero 4 hne), mul_one]

/-- Claim C8 witness: constants survive all three filters at index 500 of
1002 copies of 7 with window offset 1. -/
theorem claim8_witness :
    1 ≤ time_to_index ((1 / 5000 : ℚ) * (1 / 2)) ∧
      time_to_index ((1 / 5000 : ℚ) * (1 / 2)) ≤ 500 ∧
      500 ≤ ((500 : ℕ) : ℤ) ∧ ((500 : ℕ) : ℤ) < (1002 : ℤ) - 500 ∧
      ((calc_smooth (List.replicate 1002 (7 : ℚ)) (1 / 5000))[500]? = some 7 ∧
        (calc_weighted (List.replicate 1002 (7 : ℚ)) (1 / 5000))[500]? = some 7 ∧
        (calc_weighted2 (List.replicate 1002 (7 : ℚ)) (1 / 5000))[500]? = some 7) :=
  ⟨by rw [tti_one], by rw [tti_one]; norm_num, by norm_num, by norm_num,
    claim8_constant_preservation_amended 1002 7 (1 / 5000) 500 (by rw [tti_one])
      (by rw [tti_one]; norm_num) (by norm_num) (by norm_num)⟩

/-- Claim C9 counterexample: with a smooth time short enough that the
derived offset is zero, calc_average silently produces output (the input
value itself on the computed band) instead of signalling a configuration
error: no rejection exists in the code. -/
theorem claim9_counterexample :
    time_to_index ((1 / 100000 : ℚ) * (1 / 2)) = 0 ∧
      (calc_average (List.replicate 1002 (7 : ℚ)) (1 / 100000))[500]? = some 7 := by
  refine ⟨tti_zero, ?_⟩
  unfold calc_average
  rw [List.length_replicate, calc_averageG_getElem?]
  rw [if_pos (by norm_num), if_pos (by push_cast; norm_num)]
  rw [tti_zero, sub_zero, add_zero, pyGetD_replicate (by norm_num) (by norm_num)]
  norm_num

/-- Claim C9 amended: no filter rejects a zero offset.  calc_average with
offset zero silently degenerates to the identity on the computed band
(zero elsewhere); the division based filters divide by the zero offset at
their weight computation, which in Python is an unguarded runtime zero
division, not a configuration error check before filtering. -/
theorem claim9_zero_offset_amended {α : Type} [LinearOrderedField α] [FloorRing α]
    (positions : List α) (st : α) (h : time_to_index (st * (1 / 2)) = 0) :
    calc_average positions st =
      (List.range positions.length).map fun i : ℕ =>
        if 500 ≤ (i : ℤ) ∧ (i : ℤ) < (positions.length : ℤ) - 500 then
          pyGetD positions (i : ℤ)
        else 0 := by
  unfold calc_average calc_averageG fillOut
  apply List.map_congr_left
  intro i hi
  simp only [mem_indexesN, h, sub_zero, add_zero]
  split_ifs with hcond
  · ring
  · rfl

/-- Claim C9 witness: the amended theorem at the singleton input. -/
theorem claim9_witness :
    time_to_index ((1 / 100000 : ℚ) * (1 / 2)) = 0 ∧
      calc_average [(5 : ℚ)] (1 / 100000) =
        (List.range ([(5 : ℚ)]).length).map fun i : ℕ =>
          if 500 ≤ (i : ℤ) ∧ (i : ℤ) < (([(5 : ℚ)]).length : ℤ) - 500 then
            pyGetD [(5 : ℚ)] (i : ℤ)
          else 0 :=
  ⟨tti_zero, claim9_zero_offset_amended [(5 : ℚ)] (1 / 100000) tti_zero⟩

/-- Claim C10 counterexample: the claim quantifies over every smooth time
whose offset is at most drop, which includes negative offsets.  With
smooth time -1 the offset is -4999 (at most drop), and two read functions
that agree on every index in [0, 1002) give different calc_averageG
outputs at index 500, because the filter reads index 500 + 4999 = 5499,
outside [0, N).  So not every access stays within [0, N). -/
theorem claim10_counterexample :
    time_to_index ((-1 : ℚ) * (1 / 2)) = -4999 ∧
      time_to_index ((-1 : ℚ) * (1 / 2)) ≤ 500 ∧
      (calc_averageG (fun j : ℤ => if j < 1002 then (0 : ℚ) else 1) 1002 (-1))[500]? ≠
        (calc_averageG (fun j : ℤ => (0 : ℚ)) 1002 (-1))[500]? := by
  refine ⟨tti_neg, by rw [tti_neg]; norm_num, ?_⟩
  have e1 : (calc_averageG (fun j : ℤ => if j < 1002 then (0 : ℚ) else 1) 1002 (-1))[500]? =
      some (1 / 2) := by
    rw [calc_averageG_getElem?, if_pos (by norm_num), if_pos (by push_cast; norm_num), tti_neg]
    norm_num
  have e2 : (calc_averageG (fun j : ℤ => (0 : ℚ)) 1002 (-1))[500]? = some 0 := by
    rw [calc_averageG_getElem?, if_pos (by norm_num), if_pos (by push_cast; norm_num)]
    norm_num
  rw [e1, e2]
  norm_num

/-- Claim C10 amended: with the additional precondition that the offset is
nonnegative (and at most drop = 500), every read the direct indexing
filters perform lies inside [0, N): the outputs of calc_averageG,
calc_weightedG, calc_weighted2G and calc_spring_rawG depend only on the
read function values at indices in [0, N), and every index of the claimed
access windows is inside [0, N). -/
theorem claim10_access_bounds_amended {α : Type} [LinearOrderedField α] [FloorRing α]
    (g g2 : ℤ → α) (n : ℕ) (st : α)
    (hag : ∀ j : ℤ, 0 ≤ j → j < (n : ℤ) → g j = g2 j)
    (h0 : 0 ≤ time_to_index (st * (1 / 2))) (h5 : time_to_index (st * (1 / 2)) ≤ 500) :
    calc_averageG g n st = calc_averageG g2 n st ∧
    calc_weightedG g n st = calc_weightedG g2 n st ∧
    calc_weighted2G g n st = calc_weighted2G g2 n st ∧
    (∀ sa0 ra0 : α, calc_spring_rawG sa0 ra0 g n = calc_spring_rawG sa0 ra0 g2 n) ∧
    (∀ i j : ℤ, i ∈ indexesN α n → i - time_to_index (st * (1 / 2)) ≤ j →
      j ≤ i + time_to_index (st * (1 / 2)) → 0 ≤ j ∧ j < (n : ℤ)) := by
  refine ⟨?_, ?_, ?_, ?_, ?_⟩
  · simp only [calc_averageG, fillOut]
    apply List.map_congr_left
    intro i hi
    rw [List.mem_range] at hi
    split_ifs with hmem
    · rw [mem_indexesN] at hmem
      obtain ⟨hm1, hm2⟩ := hmem
      rw [hag ((i : ℤ) - time_to_index (st * (1 / 2))) (by omega) (by omega),
        hag ((i : ℤ) + time_to_index (st * (1 / 2))) (by omega) (by omega)]
    · rfl
  · simp only [calc_weightedG, fillOut]
    apply List.map_congr_left
    intro i hi
    rw [List.mem_range] at hi
    split_ifs with hmem
    · rw [mem_indexesN] at hmem
      obtain ⟨hm1, hm2⟩ := hmem
      congr 1
      congr 1
      apply List.map_congr_left
      intro j hj
      rw [mem_pyRange] at hj
      obtain ⟨hj1, hj2⟩ := hj
      rw [hag j (by omega) (by omega)]
    · rfl
  · simp only [calc_weighted2G, fillOut]
    apply List.map_congr_left
    intro i hi
    rw [List.mem_range] at hi
    split_ifs with hmem
    · rw [mem_indexesN] at hmem
      obtain ⟨hm1, hm2⟩ := hmem
      congr 1
      congr 1
      apply List.map_congr_left
      intro j hj
      rw [mem_pyRange] at hj
      obtain ⟨hj1, hj2⟩ := hj
      rw [hag j (by omega) (by omega)]
    · rfl
  · intro sa0 ra0
    simp only [calc_spring_rawG, fillOut]
    apply List.map_congr_left
    intro i hi
    rw [List.mem_range] at hi
    split_ifs with hmem
    · rw [mem_indexesN] at hmem
      obtain ⟨hm1, hm2⟩ := hmem
      rw [hag ((i : ℤ) - 1) (by omega) (by omega), hag ((i : ℤ)) (by omega) (by omega),
        hag ((i : ℤ) + 1) (by omega) (by omega)]
    · rfl
  · intro i j hi hj1 hj2
    rw [mem_indexesN] at hi
    constructor <;> omega

/-- Claim C10 witness: the amended theorem applied to two read functions
that agree on [0, 1002) with window offset 1. -/
theorem claim10_witness :
    (∀ j : ℤ, 0 ≤ j → j < ((1002 : ℕ) : ℤ) →
        (fun j : ℤ => (0 : ℚ)) j = (fun j : ℤ => if j < 0 then 1 else if 1002 ≤ j then 2 else 0) j) ∧
      0 ≤ time_to_index ((1 / 5000 : ℚ) * (1 / 2)) ∧
      time_to_index ((1 / 5000 : ℚ) * (1 / 2)) ≤ 500 ∧
      (calc_averageG (fun j : ℤ => (0 : ℚ)) 1002 (1 / 5000) =
          calc_averageG (fun j : ℤ => if j < 0 then 1 else if 1002 ≤ j then 2 else 0) 1002
            (1 / 5000) ∧
        calc_weightedG (fun j : ℤ => (0 : ℚ)) 1002 (1 / 5000) =
          calc_weightedG (fun j : ℤ => if j < 0 then 1 else if 1002 ≤ j then 2 else 0) 1002
            (1 / 5000) ∧
        calc_weighted2G (fun j : ℤ => (0 : ℚ)) 1002 (1 / 5000) =
          calc_weighted2G (fun j : ℤ => if j < 0 then 1 else if 1002 ≤ j then 2 else 0) 1002
            (1 / 5000) ∧
        (∀ sa0 ra0 : ℚ, calc_spring_rawG sa0 ra0 (fun j : ℤ => (0 : ℚ)) 1002 =
          calc_spring_rawG sa0 ra0 (fun j : ℤ => if j < 0 then 1 else if 1002 ≤ j then 2 else 0)
            1002) ∧
        (∀ i j : ℤ, i ∈ indexesN ℚ 1002 → i - time_to_index ((1 / 5000 : ℚ) * (1 / 2)) ≤ j →
          j ≤ i + time_to_index ((1 / 5000 : ℚ) * (1 / 2)) → 0 ≤ j ∧ j < ((1002 : ℕ) : ℤ))) := by
  have hag : ∀ j : ℤ, 0 ≤ j → j < ((1002 : ℕ) : ℤ) →
      (fun j : ℤ => (0 : ℚ)) j = (fun j : ℤ => if j < 0 then 1 else if 1002 ≤ j then 2 else 0) j := by
    intro j hj1 hj2
    simp only
    rw [if_neg (by omega), if_neg (by push_cast at hj2; omega)]
  exact ⟨hag, by rw [tti_one]; norm_num, by rw [tti_one]; norm_num,
    claim10_access_bounds_amended (fun j : ℤ => (0 : ℚ))
      (fun j : ℤ => if j < 0 then 1 else if 1002 ≤ j then 2 else 0) 1002 (1 / 5000) hag
      (by rw [tti_one]; norm_num) (by rw [tti_one]; norm_num)⟩

end Claims

end GraphMotion
